import Mathlib

/-!
Verification development for the survey-dashboard program (src/DataMining.py).

The program loads a CSV of survey records into a pandas DataFrame, applies a
boolean row mask built from an age-range slider and six multiselect widgets,
and derives KPIs, frequency tables, a keyword frequency map, a cross
tabulation, a CSV export and a row-append operation from the filtered frame.

We embed the relevant fragments shallowly: a DataFrame row becomes a `Record`
with `Option`-valued fields (`none` models a pandas missing value, NaN);
a DataFrame becomes a `List Record`; the boolean mask of lines 162-169
becomes a `Bool`-valued row predicate folded exactly as the source folds
`mask &= ...` guarded by non-empty multiselect lists.
-/

set_option maxHeartbeats 1000000

/-- One survey row.  Fields mirror the CSV columns used by the program:
`ID, Âge, Sexe, Diplôme, Q1_Domaine, Q2_Stage, Q3_Difficulté,
Q4_Informatique, Q5_Langues, Q6_Salaire_ZAR, Q7_Mobilité, Q8_Formation,
Q9_Entreprenariat, Q10_LinkedIn, Q11_Candidatures, Q12_Mentorat`.
A `none` value models a pandas NaN (missing) cell. -/
structure Record where
  id : Option Int
  age : Option Int
  sexe : Option String
  diplome : Option String
  domaine : Option String
  stage : Option String
  difficulte : Option String
  informatique : Option String
  langues : Option String
  salaire : Option Int
  mobilite : Option String
  formation : Option Int
  entreprenariat : Option String
  linkedin : Option String
  candidatures : Option Int
  mentorat : Option String
deriving Repr, DecidableEq

/-- A record with every cell missing; concrete records in examples are built
from it with structure update. -/
def blankRecord : Record :=
  ⟨none, none, none, none, none, none, none, none,
   none, none, none, none, none, none, none, none⟩

/-- The sidebar filter state (lines 152-159): the age slider value
`f_age = (ageLo, ageHi)` and the six multiselect lists.  A multiselect
returns a (possibly empty) list of selected values. -/
structure FilterState where
  ageLo : Int
  ageHi : Int
  sexe : List String
  diplome : List String
  domaine : List String
  stage : List String
  mobilite : List String
  linkedin : List String
deriving Repr, DecidableEq

/-- `df["Âge"].between(lo, hi)` for one cell: inclusive on both ends, and a
missing value (NaN) compares false. -/
def seriesBetween (v : Option Int) (lo hi : Int) : Bool :=
  match v with
  | none => false
  | some a => decide (lo ≤ a) && decide (a ≤ hi)

/-- `df[col].isin(allowed)` for one cell: exact membership, and a missing
value (NaN) is not in a list of selected strings. -/
def seriesIsin (v : Option String) (allowed : List String) : Bool :=
  match v with
  | none => false
  | some s => allowed.contains s

/-- The six categorical filters of lines 163-168, in source order: the
multiselect list paired with the column it constrains. -/
def catFilters (fs : FilterState) : List (List String × (Record → Option String)) :=
  [(fs.sexe, Record.sexe), (fs.diplome, Record.diplome), (fs.domaine, Record.domaine),
   (fs.stage, Record.stage), (fs.mobilite, Record.mobilite), (fs.linkedin, Record.linkedin)]

/-- The boolean mask of lines 162-168 evaluated at one row: start from
`df["Âge"].between(f_age[0], f_age[1])`, then for each multiselect do
`if f_x: mask &= df[col].isin(f_x)` (a Python empty list is falsy, so an
empty multiselect leaves the mask unchanged). -/
def rowMask (fs : FilterState) (r : Record) : Bool :=
  (catFilters fs).foldl
    (fun m p => if p.1.isEmpty then m else m && seriesIsin (p.2 r) p.1)
    (seriesBetween r.age fs.ageLo fs.ageHi)

/-- `dff = df[mask]` (line 169): keep, in order, the rows whose mask bit is
true. -/
def applyFilters (fs : FilterState) (df : List Record) : List Record :=
  df.filter (rowMask fs)

/-- Specification-side predicate: the conjunction of all active predicates —
the inclusive age range always, and each set-membership constraint whose
allowed set is non-empty (an absent or empty constraint is vacuously true). -/
def satisfiesAll (fs : FilterState) (r : Record) : Bool :=
  seriesBetween r.age fs.ageLo fs.ageHi &&
    (catFilters fs).all (fun p => p.1.isEmpty || seriesIsin (p.2 r) p.1)

lemma foldl_mask_eq_all (r : Record)
    (l : List (List String × (Record → Option String))) (b : Bool) :
    l.foldl (fun m p => if p.1.isEmpty then m else m && seriesIsin (p.2 r) p.1) b
      = (b && l.all (fun p => p.1.isEmpty || seriesIsin (p.2 r) p.1)) := by
  induction l generalizing b with
  | nil => simp
  | cons p l ih =>
      simp only [List.foldl_cons, List.all_cons, ih]
      cases hp : p.1.isEmpty <;> cases b <;> simp

lemma rowMask_eq_satisfiesAll (fs : FilterState) (r : Record) :
    rowMask fs r = satisfiesAll fs r := by
  unfold rowMask satisfiesAll
  exact foldl_mask_eq_all r (catFilters fs) _

/-- C1: for every dataset and filter state, the filtered view `dff` is a
sublist of the dataset (order preserved, no duplication or fabrication) and
equals exactly the rows satisfying the conjunction of all active predicates. -/
theorem filtered_view_exact (df : List Record) (fs : FilterState) :
    List.Sublist (applyFilters fs df) df ∧
      applyFilters fs df = df.filter (fun r => satisfiesAll fs r) := by
  constructor
  · exact List.filter_sublist df
  · unfold applyFilters
    exact List.filter_congr (fun r _ => rowMask_eq_satisfiesAll fs r)

/-- C10: every record of any filtered view has a present (non-missing) age:
the age-range mask is always applied and `between` is false on NaN. -/
theorem filtered_rows_have_age (df : List Record) (fs : FilterState)
    (r : Record) (h : r ∈ applyFilters fs df) : r.age.isSome := by
  unfold applyFilters at h
  have hm := List.of_mem_filter h
  rw [rowMask_eq_satisfiesAll] at hm
  unfold satisfiesAll at hm
  have hb : seriesBetween r.age fs.ageLo fs.ageHi = true :=
    (Bool.and_eq_true _ _).mp hm |>.1
  unfold seriesBetween at hb
  cases hage : r.age with
  | none => rw [hage] at hb; simp at hb
  | some a => simp

/-- Replace the `i`-th multiselect (in the source order of lines 163-168)
by the empty selection, leaving everything else unchanged. -/
def clearCat (i : Fin 6) (fs : FilterState) : FilterState :=
  match i with
  | 0 => { fs with sexe := [] }
  | 1 => { fs with diplome := [] }
  | 2 => { fs with domaine := [] }
  | 3 => { fs with stage := [] }
  | 4 => { fs with mobilite := [] }
  | 5 => { fs with linkedin := [] }

/-- Filtering with the `i`-th categorical predicate removed from the
conjunction altogether (the age range and the other five multiselects are
applied as usual): the meaning of "no filter on that column at all". -/
def applyFiltersSkipping (i : Fin 6) (fs : FilterState) (df : List Record) :
    List Record :=
  df.filter (fun r =>
    seriesBetween r.age fs.ageLo fs.ageHi &&
      ((catFilters fs).eraseIdx i).all
        (fun p => p.1.isEmpty || seriesIsin (p.2 r) p.1))

/-- C2: for every dataset, filter state and categorical filter column,
emptying that column's allowed set gives exactly the view obtained with no
filter on that column at all. -/
theorem empty_multiselect_no_constraint (df : List Record) (fs : FilterState)
    (i : Fin 6) :
    applyFilters (clearCat i fs) df = applyFiltersSkipping i fs df := by
  unfold applyFilters applyFiltersSkipping
  apply List.filter_congr
  intro r _
  rw [rowMask_eq_satisfiesAll]
  unfold satisfiesAll
  fin_cases i <;> simp [clearCat, catFilters, List.eraseIdx, Bool.and_assoc]

/-- `nb_rep = len(dff)` (line 182). -/
def nb_rep (dff : List Record) : Nat := dff.length

/-- pandas `Series.mean()` on a numeric column: missing values are skipped;
the mean of the present values, or NaN (modelled as `none`) when no value is
present. -/
def seriesMean (xs : List (Option ℚ)) : Option ℚ :=
  let vs := xs.filterMap id
  if vs.isEmpty then none else some (vs.sum / vs.length)

/-- `avg_salary = dff["Q6_Salaire_ZAR"].mean() if nb_rep else 0` (line 183):
on a non-empty view, the pandas mean (possibly NaN); on an empty view the
Python literal `0`. -/
def avg_salary (dff : List Record) : Option ℚ :=
  if nb_rep dff ≠ 0 then
    seriesMean (dff.map (fun r => r.salaire.map (fun n => (n : ℚ))))
  else some 0

/-- pandas `Series.eq(target)` on a string column: elementwise equality,
where a missing value (NaN) compares `False` — NOT NaN, so missing rows
become `False` entries of the boolean series. -/
def seriesEq (xs : List (Option String)) (target : String) : List Bool :=
  xs.map (fun v => v == some target)

/-- pandas `.mean()` of a boolean series: the fraction of `True` entries
over ALL entries (a boolean series has no NaN to skip). -/
def boolMean (bs : List Bool) : ℚ := (bs.count true : ℚ) / bs.length

/-- The rate KPI pattern of lines 184-187:
`dff[col].eq("Oui").mean() * 100 if nb_rep else 0`. -/
def rateKPI (dff : List Record) (get : Record → Option String)
    (target : String) : ℚ :=
  if nb_rep dff ≠ 0 then boolMean (seriesEq (dff.map get) target) * 100 else 0

/-- `stage_rate` (line 184). -/
def stage_rate (dff : List Record) : ℚ := rateKPI dff Record.stage "Oui"

/-- `mob_rate` (line 185). -/
def mob_rate (dff : List Record) : ℚ := rateKPI dff Record.mobilite "Oui"

/-- `entre_rate` (line 186). -/
def entre_rate (dff : List Record) : ℚ := rateKPI dff Record.entreprenariat "Oui"

/-- `li_rate` (line 187). -/
def li_rate (dff : List Record) : ℚ := rateKPI dff Record.linkedin "Oui"

/-- The rate as the specification describes it: rows whose value is missing
are excluded from the denominator (only present values are counted). -/
def rateMissingExcluded (dff : List Record) (get : Record → Option String)
    (target : String) : ℚ :=
  let present := (dff.map get).filterMap id
  if present.length = 0 then 0
  else 100 * (present.count target : ℚ) / present.length

/-- A concrete two-row view: row 1 has `Q2_Stage = "Oui"`, row 2 has a
missing `Q2_Stage`. -/
def cexStageView : List Record :=
  [{ blankRecord with stage := some "Oui" }, blankRecord]

/-- C3 counterexample: on a two-row view whose second row has a missing
`Q2_Stage`, the code's rate is 50 (the missing row counts as a non-matching
row in the denominator) while the claimed missing-excluded rate is 100. -/
theorem rate_denominator_counterexample :
    stage_rate cexStageView
        ≠ rateMissingExcluded cexStageView Record.stage "Oui" ∧
      stage_rate cexStageView = 50 ∧
      rateMissingExcluded cexStageView Record.stage "Oui" = 100 := by
  have h1 : stage_rate cexStageView = 50 := by
    have hs : seriesEq (cexStageView.map Record.stage) "Oui" = [true, false] := by
      decide
    unfold stage_rate rateKPI
    rw [if_pos (show nb_rep cexStageView ≠ 0 by decide), hs]
    unfold boolMean
    rw [show List.count true [true, false] = 1 from by decide,
      show ([true, false] : List Bool).length = 2 from rfl]
    norm_num
  have h2 : rateMissingExcluded cexStageView Record.stage "Oui" = 100 := by
    have hp : (cexStageView.map Record.stage).filterMap id = ["Oui"] := by decide
    unfold rateMissingExcluded
    rw [hp]
    norm_num
  refine ⟨by rw [h1, h2]; norm_num, h1, h2⟩

/-- The rate as the code actually computes it, stated directly: the number
of rows equal to the target over ALL rows of the view (missing values count
as non-matching rows in the denominator), scaled to 0-100; 0 on an empty
view. -/
def rateAmended (dff : List Record) (get : Record → Option String)
    (target : String) : ℚ :=
  if dff.length = 0 then 0
  else ((dff.filter (fun r => get r == some target)).length : ℚ)
        / dff.length * 100

/-- C3 (amended): every rate KPI equals the fraction of rows of the view
whose column equals the target over the total number of rows — missing
values are counted in the denominator as non-matching, not excluded —
scaled to 0-100, with 0 on the empty view. -/
theorem rate_counts_missing_in_denominator (dff : List Record)
    (get : Record → Option String) (target : String) :
    rateKPI dff get target = rateAmended dff get target ∧
      stage_rate dff = rateAmended dff Record.stage "Oui" ∧
      mob_rate dff = rateAmended dff Record.mobilite "Oui" ∧
      entre_rate dff = rateAmended dff Record.entreprenariat "Oui" ∧
      li_rate dff = rateAmended dff Record.linkedin "Oui" := by
  have key : ∀ (g : Record → Option String) (t : String),
      rateKPI dff g t = rateAmended dff g t := by
    intro g t
    unfold rateKPI rateAmended boolMean seriesEq nb_rep
    by_cases h : dff.length = 0
    · simp [h]
    · rw [if_pos h, if_neg h, List.length_map, List.length_map,
        List.count_eq_countP, List.countP_map, List.countP_map,
        ← List.countP_eq_length_filter]
      have hcp : List.countP (((· == true) ∘ fun v => v == some t) ∘ g) dff
          = List.countP (fun r => g r == some t) dff := by
        apply List.countP_congr
        intro r _
        simp [Function.comp]
      rw [hcp]
  exact ⟨key get target, key Record.stage "Oui", key Record.mobilite "Oui",
    key Record.entreprenariat "Oui", key Record.linkedin "Oui"⟩

/-- C4: on the empty filtered view the respondent count is 0 and the mean
and every rate KPI are the literal placeholder 0, produced by the
`if nb_rep else 0` guards — no division by zero is evaluated. -/
theorem empty_view_kpis :
    nb_rep [] = 0 ∧ avg_salary [] = some 0 ∧ stage_rate [] = 0 ∧
      mob_rate [] = 0 ∧ entre_rate [] = 0 ∧ li_rate [] = 0 := by
  refine ⟨rfl, by decide, by decide, by decide, by decide, by decide⟩

/-- Distinct values of a list in order of first occurrence, with an
accumulator of already-seen values.  Used to enumerate the distinct present
values of a column; no theorem relies on which order the program itself
enumerates them in. -/
def firstDedupAux (seen : List String) : List String → List String
  | [] => []
  | x :: xs =>
      if x ∈ seen then firstDedupAux seen xs
      else x :: firstDedupAux (x :: seen) xs

/-- Distinct values of a list in order of first occurrence. -/
def firstDedup (l : List String) : List String := firstDedupAux [] l

/-- Insert a (value, count) pair into a descending-by-count list, placing
it before the first strictly smaller count. -/
def insertDesc (p : String × Nat) : List (String × Nat) → List (String × Nat)
  | [] => [p]
  | q :: qs => if q.2 < p.2 then p :: q :: qs else q :: insertDesc p qs

/-- Sort (value, count) pairs by descending count.  pandas sorts the counts
with a non-stable sort and documents only the descending order, leaving the
relative order of equal counts unspecified; this model necessarily fixes
one concrete order, and no theorem claims anything about which order equal
counts come out in. -/
def sortCountDesc (ks : List (String × Nat)) : List (String × Nat) :=
  ks.foldl (fun acc p => insertDesc p acc) []

/-- `dff[col].value_counts()` (lines 208, 236, ...): missing values are
dropped, each distinct present value is paired with its number of
occurrences, and the pairs are listed by descending count.  pandas leaves
the relative order of equal counts unspecified; the model's choice is
arbitrary and nothing is proved about it. -/
def value_counts (view : List Record) (get : Record → Option String) :
    List (String × Nat) :=
  let vals := (view.map get).filterMap id
  sortCountDesc ((firstDedup vals).map (fun k => (k, vals.count k)))

/-- `value_counts().head(n)` (line 236 with n = 10): the first n entries. -/
def topN (view : List Record) (get : Record → Option String) (n : Nat) :
    List (String × Nat) :=
  (value_counts view get).take n

lemma mem_firstDedupAux {a : String} :
    ∀ {l seen : List String}, a ∈ firstDedupAux seen l ↔ (a ∈ l ∧ a ∉ seen) := by
  intro l
  induction l with
  | nil => simp [firstDedupAux]
  | cons x xs ih =>
      intro seen
      by_cases hx : x ∈ seen
      · simp only [firstDedupAux, if_pos hx, ih, List.mem_cons]
        constructor
        · rintro ⟨h1, h2⟩; exact ⟨Or.inr h1, h2⟩
        · rintro ⟨h1 | h1, h2⟩
          · exact absurd (h1 ▸ hx) h2
          · exact ⟨h1, h2⟩
      · simp only [firstDedupAux, if_neg hx, List.mem_cons, ih]
        constructor
        · rintro (rfl | ⟨h1, h2⟩)
          · exact ⟨Or.inl rfl, hx⟩
          · simp only [List.mem_cons, not_or] at h2
            exact ⟨Or.inr h1, h2.2⟩
        · rintro ⟨rfl | h1, h2⟩
          · exact Or.inl rfl
          · by_cases hax : a = x
            · exact Or.inl hax
            · exact Or.inr ⟨h1, by simp [List.mem_cons, hax, h2]⟩

lemma pairwise_indexOf_firstDedupAux :
    ∀ (l seen : List String),
      (firstDedupAux seen l).Pairwise (fun a b => l.indexOf a < l.indexOf b) := by
  intro l
  induction l with
  | nil => intro seen; simp [firstDedupAux]
  | cons x xs ih =>
      intro seen
      have lift : ∀ (s : List String), x ∈ s →
          (firstDedupAux s xs).Pairwise
            (fun a b => (x :: xs).indexOf a < (x :: xs).indexOf b) := by
        intro s hxs
        refine List.Pairwise.imp_of_mem ?_ (ih s)
        intro a b ha hb hab
        have hax : a ≠ x := fun h =>
          ((mem_firstDedupAux.mp ha).2 (h ▸ hxs))
        have hbx : b ≠ x := fun h =>
          ((mem_firstDedupAux.mp hb).2 (h ▸ hxs))
        rw [List.indexOf_cons_ne _ (Ne.symm hax), List.indexOf_cons_ne _ (Ne.symm hbx)]
        exact Nat.succ_lt_succ hab
      by_cases hx : x ∈ seen
      · rw [firstDedupAux, if_pos hx]
        exact lift seen hx
      · rw [firstDedupAux, if_neg hx]
        refine List.Pairwise.cons ?_ (lift (x :: seen) (List.mem_cons_self x seen))
        intro b hb
        have hbx : b ≠ x := fun h =>
          (mem_firstDedupAux.mp hb).2 (h ▸ List.mem_cons_self x seen)
        rw [List.indexOf_cons_self, List.indexOf_cons_ne _ (Ne.symm hbx)]
        exact Nat.succ_pos _

/-- The distinct values produced by `firstDedup` are listed in strictly
increasing order of first occurrence in the input. -/
lemma pairwise_indexOf_firstDedup (l : List String) :
    (firstDedup l).Pairwise (fun a b => l.indexOf a < l.indexOf b) :=
  pairwise_indexOf_firstDedupAux l []

lemma countP_notmem_split {x : String} {seen : List String} (hx : x ∉ seen)
    (xs : List String) :
    List.countP (fun a => decide (a ∉ seen)) xs
      = List.countP (fun a => decide (a ∉ x :: seen)) xs + xs.count x := by
  induction xs with
  | nil => simp
  | cons y ys ihy =>
      rw [List.countP_cons, List.countP_cons, List.count_cons, ihy]
      by_cases hyx : y = x
      · subst hyx
        rw [if_pos (by simp [hx]), if_neg (by simp), if_pos (by simp)]
        omega
      · by_cases hys : y ∈ seen
        · rw [if_neg (by simp [hys]), if_neg (by simp [hys]),
            if_neg (by simp [beq_iff_eq, hyx])]
          omega
        · rw [if_pos (by simp [hys]), if_pos (by simp [hyx, hys]),
            if_neg (by simp [beq_iff_eq, hyx])]
          omega

lemma sum_counts_firstDedupAux :
    ∀ (l seen : List String),
      ((firstDedupAux seen l).map (fun k => l.count k)).sum
        = (l.filter (fun a => decide (a ∉ seen))).length := by
  intro l
  induction l with
  | nil => intro seen; simp [firstDedupAux]
  | cons x xs ih =>
      intro seen
      have congrCount : ∀ (s : List String), x ∈ s →
          ((firstDedupAux s xs).map (fun k => (x :: xs).count k)).sum
            = ((firstDedupAux s xs).map (fun k => xs.count k)).sum := by
        intro s hxs
        congr 1
        apply List.map_congr_left
        intro k hk
        have hkx : k ≠ x := fun h => (mem_firstDedupAux.mp hk).2 (h ▸ hxs)
        exact List.count_cons_of_ne hkx xs
      by_cases hx : x ∈ seen
      · rw [firstDedupAux, if_pos hx, congrCount seen hx, ih]
        rw [List.filter_cons_of_neg (by simp [hx])]
      · rw [firstDedupAux, if_neg hx]
        rw [List.map_cons, List.sum_cons, congrCount (x :: seen)
          (List.mem_cons_self x seen), ih]
        rw [List.filter_cons_of_pos (by simp [hx]), List.length_cons]
        rw [List.count_cons_self]
        have split : (xs.filter (fun a => decide (a ∉ seen))).length
            = (xs.filter (fun a => decide (a ∉ x :: seen))).length + xs.count x := by
          rw [← List.countP_eq_length_filter, ← List.countP_eq_length_filter]
          exact countP_notmem_split hx xs
        omega

/-- Sum of the counts over the distinct values equals the length of the
value list. -/
lemma sum_counts_firstDedup (l : List String) :
    ((firstDedup l).map (fun k => l.count k)).sum = l.length := by
  have h := sum_counts_firstDedupAux l []
  simpa [firstDedup] using h

lemma mem_insertDesc {p q : String × Nat} :
    ∀ {l : List (String × Nat)}, q ∈ insertDesc p l ↔ (q = p ∨ q ∈ l) := by
  intro l
  induction l with
  | nil => simp [insertDesc]
  | cons r rs ih =>
      rw [insertDesc]
      by_cases h : r.2 < p.2
      · rw [if_pos h]
        simp only [List.mem_cons]
      · rw [if_neg h]
        simp only [List.mem_cons, ih]
        tauto

lemma length_insertDesc (p : String × Nat) :
    ∀ (l : List (String × Nat)), (insertDesc p l).length = l.length + 1 := by
  intro l
  induction l with
  | nil => rfl
  | cons r rs ih =>
      rw [insertDesc]
      by_cases h : r.2 < p.2
      · rw [if_pos h]; rfl
      · rw [if_neg h, List.length_cons, ih, List.length_cons]

lemma sum_snd_insertDesc (p : String × Nat) :
    ∀ (l : List (String × Nat)),
      ((insertDesc p l).map Prod.snd).sum = p.2 + (l.map Prod.snd).sum := by
  intro l
  induction l with
  | nil => simp [insertDesc]
  | cons r rs ih =>
      rw [insertDesc]
      by_cases h : r.2 < p.2
      · rw [if_pos h]; simp
      · rw [if_neg h]
        simp only [List.map_cons, List.sum_cons, ih]
        omega

lemma length_sortFold :
    ∀ (ks acc : List (String × Nat)),
      (ks.foldl (fun a p => insertDesc p a) acc).length
        = ks.length + acc.length := by
  intro ks
  induction ks with
  | nil => intro acc; simp
  | cons p ps ih =>
      intro acc
      rw [List.foldl_cons, ih, length_insertDesc]
      simp only [List.length_cons]
      omega

lemma sum_snd_sortFold :
    ∀ (ks acc : List (String × Nat)),
      ((ks.foldl (fun a p => insertDesc p a) acc).map Prod.snd).sum
        = (ks.map Prod.snd).sum + (acc.map Prod.snd).sum := by
  intro ks
  induction ks with
  | nil => intro acc; simp
  | cons p ps ih =>
      intro acc
      rw [List.foldl_cons, ih, sum_snd_insertDesc]
      simp only [List.map_cons, List.sum_cons]
      omega

/-- Inserting into a list sorted by non-increasing count keeps it sorted by
non-increasing count (ties adjacent, in whichever order). -/
lemma pairwise_le_insertDesc (p : String × Nat) :
    ∀ {l : List (String × Nat)},
      l.Pairwise (fun a b : String × Nat => b.2 ≤ a.2) →
      (insertDesc p l).Pairwise (fun a b : String × Nat => b.2 ≤ a.2) := by
  intro l
  induction l with
  | nil => intro _; simp [insertDesc]
  | cons q qs ih =>
      intro hp
      have hp' := List.pairwise_cons.mp hp
      rw [insertDesc]
      by_cases h : q.2 < p.2
      · rw [if_pos h]
        refine List.Pairwise.cons ?_ hp
        intro z hz
        rcases List.mem_cons.mp hz with rfl | hzqs
        · omega
        · have := hp'.1 z hzqs
          omega
      · rw [if_neg h]
        refine List.Pairwise.cons ?_ (ih hp'.2)
        intro z hz
        rcases mem_insertDesc.mp hz with rfl | hz
        · omega
        · exact hp'.1 z hz

lemma pairwise_le_sortFold :
    ∀ (ks acc : List (String × Nat)),
      acc.Pairwise (fun a b : String × Nat => b.2 ≤ a.2) →
      (ks.foldl (fun a p => insertDesc p a) acc).Pairwise
        (fun a b : String × Nat => b.2 ≤ a.2) := by
  intro ks
  induction ks with
  | nil => intro acc h; simpa using h
  | cons p ps ih =>
      intro acc hacc
      rw [List.foldl_cons]
      exact ih _ (pairwise_le_insertDesc p hacc)

lemma insertDesc_perm (p : String × Nat) :
    ∀ (l : List (String × Nat)), List.Perm (insertDesc p l) (p :: l) := by
  intro l
  induction l with
  | nil => exact List.Perm.refl _
  | cons q qs ih =>
      rw [insertDesc]
      by_cases h : q.2 < p.2
      · rw [if_pos h]
      · rw [if_neg h]
        exact List.Perm.trans (List.Perm.cons q ih) (List.Perm.swap p q qs)

lemma sortFold_perm :
    ∀ (ks acc : List (String × Nat)),
      List.Perm (ks.foldl (fun a p => insertDesc p a) acc) (ks ++ acc) := by
  intro ks
  induction ks with
  | nil => intro acc; exact List.Perm.refl _
  | cons p ps ih =>
      intro acc
      rw [List.foldl_cons]
      refine List.Perm.trans (ih _) ?_
      refine List.Perm.trans (List.Perm.append_left ps (insertDesc_perm p acc)) ?_
      exact List.perm_middle

/-- C5 counterexample: on a one-row view whose `Diplôme` is missing,
`value_counts` drops the missing value, so its counts sum to 0 while the
view has 1 row — the claimed identity `sum of counts = count(view)` fails. -/
theorem value_counts_sum_counterexample :
    ((value_counts [blankRecord] Record.diplome).map Prod.snd).sum
      ≠ nb_rep [blankRecord] := by decide

/-- C5 (amended): the counts of `value_counts` sum to the number of rows
whose column value is PRESENT (missing values are dropped by pandas
`value_counts`, so on views with missing cells this is less than
`count(view)`); `topN` is the prefix of `value_counts` of length
`min n (number of distinct present values)`; `value_counts` is ordered by
non-increasing count and holds exactly one (value, count-of-occurrences)
entry per distinct present value.  The relative order of equal counts is
left unspecified by pandas, so nothing is claimed about it — in particular
the originally claimed first-occurrence tie-break is not a property of the
code. -/
theorem value_counts_topn_spec (view : List Record)
    (get : Record → Option String) (n : Nat) :
    ((value_counts view get).map Prod.snd).sum
        = ((view.map get).filterMap id).length
      ∧ value_counts view get
          = topN view get n ++ (value_counts view get).drop n
      ∧ (topN view get n).length
          = min n (firstDedup ((view.map get).filterMap id)).length
      ∧ (value_counts view get).Pairwise (fun a b => b.2 ≤ a.2)
      ∧ List.Perm (value_counts view get)
          ((firstDedup ((view.map get).filterMap id)).map
            (fun k => (k, ((view.map get).filterMap id).count k))) := by
  refine ⟨?_, ?_, ?_, ?_, ?_⟩
  · unfold value_counts sortCountDesc
    rw [sum_snd_sortFold]
    simp only [List.map_nil, List.sum_nil, Nat.add_zero, List.map_map]
    have : (Prod.snd ∘ fun k => (k, ((view.map get).filterMap id).count k))
        = fun k => ((view.map get).filterMap id).count k := rfl
    rw [this, sum_counts_firstDedup]
  · exact (List.take_append_drop n (value_counts view get)).symm
  · unfold topN
    rw [List.length_take]
    congr 1
    unfold value_counts sortCountDesc
    rw [length_sortFold, List.length_map, List.length_nil]
    omega
  · unfold value_counts sortCountDesc
    exact pairwise_le_sortFold _ [] List.Pairwise.nil
  · unfold value_counts sortCountDesc
    have h := sortFold_perm ((firstDedup ((view.map get).filterMap id)).map
      (fun k => (k, ((view.map get).filterMap id).count k))) []
    rw [List.append_nil] at h
    exact h

/-- The fixed stopword set of `extract_keywords` (lines 270-275), verbatim. -/
def stop_words : List String :=
  ["le","de","un","une","et","en","à","dans","sur","au","aux","du","des","la","les",
   "je","tu","il","elle","nous","vous","ils","elles","est","sont","être","avoir","pour",
   "ce","cet","cette","ces","qui","quoi","dont","où","comment","pourquoi","quand",
   "avec","par","plus","moins","très","tres","bien","mal","ne","pas","se","son","sa","ses"]

/-- Python `str.lower()` for the characters occurring in this data: the
ASCII mapping plus the accented French capitals. -/
def pyLower (c : Char) : Char :=
  match c with
  | 'À' => 'à' | 'Â' => 'â' | 'Ä' => 'ä' | 'É' => 'é' | 'È' => 'è'
  | 'Ê' => 'ê' | 'Ë' => 'ë' | 'Î' => 'î' | 'Ï' => 'ï' | 'Ô' => 'ô'
  | 'Ö' => 'ö' | 'Ù' => 'ù' | 'Û' => 'û' | 'Ü' => 'ü' | 'Ç' => 'ç'
  | 'Œ' => 'œ' | _ => c.toLower

/-- The accented letters (both cases) that the regex class `\w` keeps in
this data, beyond ASCII alphanumerics and underscore. -/
def frenchLetters : List Char :=
  ['à','â','ä','é','è','ê','ë','î','ï','ô','ö','ù','û','ü','ç','œ',
   'À','Â','Ä','É','È','Ê','Ë','Î','Ï','Ô','Ö','Ù','Û','Ü','Ç','Œ']

/-- Python regex `\w` (Unicode word character), restricted to the alphabet
of this dataset: ASCII alphanumerics, underscore, accented French letters. -/
def isWordChar (c : Char) : Bool :=
  c.isAlphanum || c == '_' || frenchLetters.contains c

/-- `re.sub(r"[^\w\s]", " ", txt)` (line 278): every character that is
neither a word character nor whitespace becomes a space. -/
def pySub (cs : List Char) : List Char :=
  cs.map (fun c => if isWordChar c || c.isWhitespace then c else ' ')

/-- `txt.replace("’", " ").replace("'", " ")` (line 279). -/
def pyReplaceApos (cs : List Char) : List Char :=
  cs.map (fun c => if c == '’' || c == '\'' then ' ' else c)

/-- Helper for Python `str.split()`: fold from the right, whitespace starts
a new (possibly empty) chunk, any other character extends the first chunk. -/
def splitWsAux (cs : List Char) : List (List Char) :=
  cs.foldr
    (fun c acc =>
      if c.isWhitespace then [] :: acc
      else (c :: acc.headD []) :: acc.tail)
    [[]]

/-- Python `str.split()` with no argument: split on whitespace runs and
discard empty chunks. -/
def splitWs (cs : List Char) : List (List Char) :=
  (splitWsAux cs).filter (fun t => ¬ t.isEmpty)

/-- The tokens one text value contributes in `extract_keywords`
(lines 277-282): lowercase, strip punctuation to spaces, drop apostrophes,
split on whitespace, keep tokens of length ≥ `min_length` that are not
stopwords. -/
def extract_tokens (t : String) (min_length : Nat) : List String :=
  ((splitWs (pyReplaceApos (pySub (t.data.map pyLower)))).filter
    (fun w => decide (min_length ≤ w.length) && ! stop_words.contains (String.mk w))).map
    String.mk

/-- `extract_keywords(series, min_length)` (lines 269-283) as the multiset
of counted tokens: missing values are dropped, each text contributes its
kept tokens.  The resulting `Counter` maps `w` to the number of occurrences
of `w` in this list. -/
def extract_keywords (series : List (Option String)) (min_length : Nat) :
    List String :=
  (series.filterMap id).flatMap (fun t => extract_tokens t min_length)

/-- The frequency the `Counter` of `extract_keywords` assigns to token `w`. -/
def keywordFreq (series : List (Option String)) (min_length : Nat)
    (w : String) : Nat :=
  (extract_keywords series min_length).count w

/-- C6: keyword extraction is case- and punctuation-insensitive — the inputs
`"Emploi!"` and `"emploi"` produce the very same token list `["emploi"]` —
and every token with a positive count is at least `min_length` long and not
a stopword. -/
theorem keyword_extraction_clean :
    (∀ (series : List (Option String)) (min_length : Nat) (w : String),
        0 < keywordFreq series min_length w →
          min_length ≤ w.length ∧ w ∉ stop_words) ∧
      extract_tokens "Emploi!" 3 = ["emploi"] ∧
      extract_tokens "emploi" 3 = ["emploi"] := by
  refine ⟨?_, by decide, by decide⟩
  intro series min_length w h
  have hw : w ∈ extract_keywords series min_length := List.count_pos_iff.mp h
  unfold extract_keywords at hw
  obtain ⟨t, _, hwt⟩ := List.mem_flatMap.mp hw
  unfold extract_tokens at hwt
  obtain ⟨cs, hcs, rfl⟩ := List.mem_map.mp hwt
  have hpred := List.of_mem_filter hcs
  have h1 : decide (min_length ≤ cs.length) = true ∧
      (! stop_words.contains (String.mk cs)) = true :=
    Bool.and_eq_true _ _ |>.mp hpred
  refine ⟨?_, ?_⟩
  · rw [String.length_mk]
    exact of_decide_eq_true h1.1
  · intro hmem
    have : stop_words.contains (String.mk cs) = true := by
      simpa using hmem
    rw [this] at h1
    exact Bool.false_ne_true h1.2

/-- C6 witness: the theorem applied to the one-value series `["Emploi!"]`
and the token `"emploi"`, whose count is 1 there. -/
theorem keyword_extraction_clean_witness :
    3 ≤ "emploi".length ∧ "emploi" ∉ stop_words :=
  keyword_extraction_clean.1 [some "Emploi!"] 3 "emploi" (by decide)

/-- Lexicographic code-point comparison of character lists (the string
order pandas sorts grouping keys by). -/
def charListLt : List Char → List Char → Bool
  | [], [] => false
  | [], _ :: _ => true
  | _ :: _, [] => false
  | a :: as, b :: bs => if a < b then true else if b < a then false else charListLt as bs

/-- Lexicographic comparison of strings. -/
def strLt (a b : String) : Bool := charListLt a.data b.data

/-- Insert a string into a lexicographically sorted list of strings. -/
def insertStr (a : String) : List String → List String
  | [] => [a]
  | b :: bs => if strLt a b then a :: b :: bs else b :: insertStr a bs

/-- Sort strings lexicographically ascending (the order in which pandas
lays out the distinct grouping keys of a crosstab). -/
def sortStr (l : List String) : List String := l.foldr insertStr []

lemma mem_insertStr {a v : String} :
    ∀ {l : List String}, v ∈ insertStr a l ↔ (v = a ∨ v ∈ l) := by
  intro l
  induction l with
  | nil => simp [insertStr]
  | cons b bs ih =>
      rw [insertStr]
      by_cases h : strLt a b = true
      · rw [if_pos h]
        simp only [List.mem_cons]
      · rw [if_neg h]
        simp only [List.mem_cons, ih]
        tauto

lemma mem_sortStr {v : String} :
    ∀ {l : List String}, v ∈ sortStr l ↔ v ∈ l := by
  intro l
  induction l with
  | nil => simp [sortStr]
  | cons b bs ih =>
      simp only [sortStr, List.foldr_cons]
      rw [show List.foldr insertStr [] bs = sortStr bs from rfl] at *
      simp only [mem_insertStr, ih, List.mem_cons]

lemma nodup_insertStr {a : String} :
    ∀ {l : List String}, a ∉ l → l.Nodup → (insertStr a l).Nodup := by
  intro l
  induction l with
  | nil => intro _ _; simp [insertStr]
  | cons b bs ih =>
      intro ha hn
      rw [insertStr]
      have hab : a ≠ b := fun h => ha (h ▸ List.mem_cons_self b bs)
      have ha' : a ∉ bs := fun h => ha (List.mem_cons_of_mem b h)
      rcases List.nodup_cons.mp hn with ⟨hb, hbs⟩
      by_cases h : strLt a b = true
      · rw [if_pos h]
        exact List.nodup_cons.mpr ⟨by simp [List.mem_cons, hab, ha'], hn⟩
      · rw [if_neg h]
        refine List.nodup_cons.mpr ⟨?_, ih ha' hbs⟩
        rw [mem_insertStr]
        rintro (h1 | h1)
        · exact hab h1.symm
        · exact hb h1

lemma nodup_sortStr : ∀ {l : List String}, l.Nodup → (sortStr l).Nodup := by
  intro l
  induction l with
  | nil => intro _; simp [sortStr]
  | cons b bs ih =>
      intro hn
      rcases List.nodup_cons.mp hn with ⟨hb, hbs⟩
      simp only [sortStr, List.foldr_cons]
      exact nodup_insertStr (fun h => hb (mem_sortStr.mp h)) (ih hbs)

lemma mem_firstDedup {a : String} {l : List String} :
    a ∈ firstDedup l ↔ a ∈ l := by
  unfold firstDedup
  rw [mem_firstDedupAux]
  simp

lemma nodup_firstDedup (l : List String) : (firstDedup l).Nodup := by
  refine List.Pairwise.imp ?_ (pairwise_indexOf_firstDedup l)
  intro a b h
  intro e
  subst e
  exact Nat.lt_irrefl _ h

/-- The (row value, column value) pairs that `pd.crosstab(s1, s2)` actually
tabulates: positions where EITHER series is missing are dropped entirely
(crosstab groups with `dropna`). -/
def crosstabPairs (view : List Record) (getR getC : Record → Option String) :
    List (String × String) :=
  view.filterMap (fun r =>
    match getR r, getC r with
    | some a, some b => some (a, b)
    | _, _ => none)

/-- The distinct row labels of the crosstab, sorted as pandas sorts them. -/
def crosstabRowVals (view : List Record)
    (getR getC : Record → Option String) : List String :=
  sortStr (firstDedup ((crosstabPairs view getR getC).map Prod.fst))

/-- The distinct column labels of the crosstab. -/
def crosstabColVals (view : List Record)
    (getR getC : Record → Option String) : List String :=
  sortStr (firstDedup ((crosstabPairs view getR getC).map Prod.snd))

/-- `pd.crosstab(dff["Q3_Difficulté"], dff["Diplôme"])` (line 365): a dense
matrix — one row per distinct row label, and in every row one entry per
distinct column label holding the co-occurrence count (0 when the pair
never occurs, never an absent cell). -/
def crosstab (view : List Record) (getR getC : Record → Option String) :
    List (String × List (String × Nat)) :=
  (crosstabRowVals view getR getC).map (fun rv =>
    (rv, (crosstabColVals view getR getC).map (fun cv =>
      (cv, (crosstabPairs view getR getC).count (rv, cv)))))

lemma lookup_map_pair {β : Type} (f : String → β) :
    ∀ (ks : List String) (v : String), v ∈ ks →
      (ks.map (fun k => (k, f k))).lookup v = some (f v) := by
  intro ks
  induction ks with
  | nil => simp
  | cons k ks ih =>
      intro v hv
      rw [List.map_cons]
      by_cases h : v = k
      · subst h
        simp [List.lookup]
      · have hv' : v ∈ ks := by
          rcases List.mem_cons.mp hv with h1 | h1
          · exact absurd h1 h
          · exact h1
        simp only [List.lookup]
        rw [show (v == k) = false from beq_eq_false_iff_ne.mpr h]
        exact ih v hv'

/-- C7 counterexample: on a one-row view where `Q3_Difficulté = "A"` but
`Diplôme` is missing, "A" is an observed value of the first column, yet the
crosstab has no row labelled "A": pandas drops every position where either
series is missing. -/
theorem crosstab_missing_counterexample :
    "A" ∈ (([{ blankRecord with difficulte := some "A" }].map
        Record.difficulte).filterMap id) ∧
      "A" ∉ ((crosstab [{ blankRecord with difficulte := some "A" }]
        Record.difficulte Record.diplome).map Prod.fst) := by
  decide

/-- C7 (amended): for rows where BOTH columns are present, the crosstab has
exactly one row per distinct observed row value and one entry per distinct
observed column value in each row; every (row value, column value) cell is
present and holds the exact co-occurrence count — in particular `0`, not an
absent cell, for never co-occurring combinations. -/
theorem crosstab_dense (view : List Record)
    (getR getC : Record → Option String) :
    ((crosstab view getR getC).map Prod.fst).Nodup
      ∧ (∀ v, v ∈ (crosstab view getR getC).map Prod.fst
          ↔ v ∈ (crosstabPairs view getR getC).map Prod.fst)
      ∧ (crosstabColVals view getR getC).Nodup
      ∧ (∀ v, v ∈ crosstabColVals view getR getC
          ↔ v ∈ (crosstabPairs view getR getC).map Prod.snd)
      ∧ (∀ rv cv, rv ∈ (crosstab view getR getC).map Prod.fst →
          cv ∈ crosstabColVals view getR getC →
          ∃ row, (crosstab view getR getC).lookup rv = some row ∧
            row.lookup cv
              = some ((crosstabPairs view getR getC).count (rv, cv))) := by
  have hfst : (crosstab view getR getC).map Prod.fst
      = crosstabRowVals view getR getC := by
    unfold crosstab
    rw [List.map_map]
    exact List.map_id _
  refine ⟨?_, ?_, ?_, ?_, ?_⟩
  · rw [hfst]
    exact nodup_sortStr (nodup_firstDedup _)
  · intro v
    rw [hfst]
    unfold crosstabRowVals
    rw [mem_sortStr, mem_firstDedup]
  · exact nodup_sortStr (nodup_firstDedup _)
  · intro v
    unfold crosstabColVals
    rw [mem_sortStr, mem_firstDedup]
  · intro rv cv hrv hcv
    rw [hfst] at hrv
    refine ⟨(crosstabColVals view getR getC).map (fun cv =>
      (cv, (crosstabPairs view getR getC).count (rv, cv))), ?_, ?_⟩
    · unfold crosstab
      exact lookup_map_pair _ _ rv hrv
    · exact lookup_map_pair _ _ cv hcv

/-- C7 witness: the theorem applied to the concrete A/B × X/Y scenario with
no (B, Y) row: the (B, Y) cell is present and its count is exactly 0. -/
theorem crosstab_dense_witness :
    (crosstabPairs
        [{ blankRecord with difficulte := some "A", diplome := some "X" },
         { blankRecord with difficulte := some "A", diplome := some "Y" },
         { blankRecord with difficulte := some "B", diplome := some "X" }]
        Record.difficulte Record.diplome).count ("B", "Y") = 0 ∧
      ∃ row, (crosstab
          [{ blankRecord with difficulte := some "A", diplome := some "X" },
           { blankRecord with difficulte := some "A", diplome := some "Y" },
           { blankRecord with difficulte := some "B", diplome := some "X" }]
          Record.difficulte Record.diplome).lookup "B" = some row ∧
        row.lookup "Y" = some ((crosstabPairs
          [{ blankRecord with difficulte := some "A", diplome := some "X" },
           { blankRecord with difficulte := some "A", diplome := some "Y" },
           { blankRecord with difficulte := some "B", diplome := some "X" }]
          Record.difficulte Record.diplome).count ("B", "Y")) :=
  ⟨by decide,
    (crosstab_dense
      [{ blankRecord with difficulte := some "A", diplome := some "X" },
       { blankRecord with difficulte := some "A", diplome := some "Y" },
       { blankRecord with difficulte := some "B", diplome := some "X" }]
      Record.difficulte Record.diplome).2.2.2.2 "B" "Y" (by decide) (by decide)⟩

/-- `_id = int((df["ID"].max() if "ID" in df.columns else 0) + 1)`
(line 388).  `hasIdCol` models `"ID" in df.columns`; the identifiers are the
(possibly missing) `ID` cells of the session dataframe.  pandas `max()`
skips missing values and is NaN on an empty column, and Python
`int(nan + 1)` raises `ValueError` — modelled as `none`. -/
def computeId (hasIdCol : Bool) (ids : List (Option Int)) : Option Int :=
  if hasIdCol then ((ids.filterMap id).max?).map (fun m => m + 1)
  else some 1

/-- The append operation (lines 388, 410-421): the new identifier is
computed from the session dataframe `df`, the fresh read of the persisted
source is `source` (`pd.read_csv(csv_path)`), the candidate row is written
with `ID := _id` and concatenated last, and the whole table is written
back.  `none` models the uncaught `ValueError` of the identifier
computation. -/
def appendFlow (source df : List Record) (hasIdCol : Bool)
    (cand : Record) : Option (List Record) :=
  (computeId hasIdCol (df.map Record.id)).map
    (fun i => source ++ [{ cand with id := some i }])

/-- C8 counterexample: on an EMPTY persisted source that does have an
identifier column, the append operation fails (Python
`int(nan + 1)` raises `ValueError`) instead of assigning identifier 1 as
the claim states. -/
theorem append_empty_source_counterexample :
    appendFlow [] [] true blankRecord = none ∧
      ∀ (r : Record), appendFlow [] [] true blankRecord
        ≠ some [{ r with id := some 1 }] := by
  constructor
  · decide
  · intro r
    rw [show appendFlow [] [] true blankRecord = none from by decide]
    exact fun h => Option.noConfusion h

/-- C8 (amended): when the session dataframe equals the freshly read
source (the normal flow: the session loaded that same source) and the
source has an identifier column with at least one present identifier of
maximum k, appending yields the source with exactly one extra row, the old
rows unchanged as a prefix, and the new last row carrying identifier k+1;
when the source lacks an identifier column the new identifier is 1.  (On an
empty identifier column the operation raises instead of using 1.) -/
theorem append_increments_max_id (source : List Record) (cand : Record)
    (k : Int)
    (hmax : ((source.map Record.id).filterMap id).max? = some k) :
    (∃ out, appendFlow source source true cand = some out ∧
        out.length = source.length + 1 ∧
        out.take source.length = source ∧
        out.getLast? = some { cand with id := some (k + 1) }) ∧
      (∀ (src' df' : List Record) (cand' : Record),
        appendFlow src' df' false cand'
          = some (src' ++ [{ cand' with id := some 1 }])) := by
  constructor
  · refine ⟨source ++ [{ cand with id := some (k + 1) }], ?_, ?_, ?_, ?_⟩
    · unfold appendFlow computeId
      rw [if_pos rfl, hmax]
      rfl
    · rw [List.length_append]
      rfl
    · exact List.take_left source _
    · exact List.getLast?_concat source
  · intro src' df' cand'
    rfl

/-- C8 witness: the theorem applied to a two-row source with identifiers
1 and 2: the appended row gets identifier 3, the length grows to 3, and
the two old rows are unchanged. -/
theorem append_increments_max_id_witness :
    ∃ out, appendFlow
        [{ blankRecord with id := some 1 }, { blankRecord with id := some 2 }]
        [{ blankRecord with id := some 1 }, { blankRecord with id := some 2 }]
        true blankRecord = some out ∧
      out.length
        = ([{ blankRecord with id := some 1 },
            { blankRecord with id := some 2 }] : List Record).length + 1 ∧
      out.take ([{ blankRecord with id := some 1 },
            { blankRecord with id := some 2 }] : List Record).length
        = [{ blankRecord with id := some 1 }, { blankRecord with id := some 2 }] ∧
      out.getLast? = some { blankRecord with id := some ((2 : Int) + 1) } :=
  (append_increments_max_id
    [{ blankRecord with id := some 1 }, { blankRecord with id := some 2 }]
    blankRecord 2 (by decide)).1

/-- The decimal digit character for `n < 10`. -/
def digitChar : Nat → Char
  | 0 => '0' | 1 => '1' | 2 => '2' | 3 => '3' | 4 => '4'
  | 5 => '5' | 6 => '6' | 7 => '7' | 8 => '8' | _ => '9'

/-- The numeric value of a digit character. -/
def digitVal (c : Char) : Nat := c.toNat - 48

/-- Decimal digits of `n`, most significant first; `fuel` bounds the
recursion (any `fuel > n` is enough). -/
def natDigitsAux : Nat → Nat → List Char
  | 0, _ => []
  | fuel + 1, n =>
      if n < 10 then [digitChar n]
      else natDigitsAux fuel (n / 10) ++ [digitChar (n % 10)]

/-- Decimal digits of `n`, most significant first. -/
def natDigits (n : Nat) : List Char := natDigitsAux (n + 1) n

/-- Fold decimal digit characters back into a number. -/
def parseNatDigits (cs : List Char) : Nat :=
  cs.foldl (fun acc c => acc * 10 + digitVal c) 0

/-- Render an integer the way `to_csv` writes it. -/
def renderInt (n : Int) : String :=
  if n < 0 then String.mk ('-' :: natDigits (-n).toNat)
  else String.mk (natDigits n.toNat)

lemma digitVal_digitChar {n : Nat} (h : n < 10) :
    digitVal (digitChar n) = n := by
  interval_cases n <;> rfl

lemma isDigit_digitChar {n : Nat} (h : n < 10) :
    (digitChar n).isDigit = true := by
  interval_cases n <;> rfl

lemma natDigitsAux_spec :
    ∀ (fuel n : Nat), n < fuel →
      natDigitsAux fuel n ≠ [] ∧
        (∀ c ∈ natDigitsAux fuel n, c.isDigit = true) ∧
        parseNatDigits (natDigitsAux fuel n) = n := by
  intro fuel
  induction fuel with
  | zero => intro n h; omega
  | succ fuel ih =>
      intro n h
      by_cases h10 : n < 10
      · rw [natDigitsAux, if_pos h10]
        refine ⟨by simp, ?_, ?_⟩
        · intro c hc
          rw [List.mem_singleton.mp hc]
          exact isDigit_digitChar h10
        · unfold parseNatDigits
          simp [digitVal_digitChar h10]
      · rw [natDigitsAux, if_neg h10]
        have hd : n / 10 < n := Nat.div_lt_self (by omega) (by omega)
        have hdf : n / 10 < fuel := by omega
        obtain ⟨hne, hdig, hval⟩ := ih (n / 10) hdf
        refine ⟨by simp, ?_, ?_⟩
        · intro c hc
          rcases List.mem_append.mp hc with hc | hc
          · exact hdig c hc
          · rw [List.mem_singleton.mp hc]
            exact isDigit_digitChar (Nat.mod_lt n (by omega))
        · unfold parseNatDigits
          rw [List.foldl_append]
          unfold parseNatDigits at hval
          rw [hval]
          simp only [List.foldl_cons, List.foldl_nil]
          rw [digitVal_digitChar (Nat.mod_lt n (by omega))]
          omega

lemma natDigits_ne_nil (n : Nat) : natDigits n ≠ [] :=
  (natDigitsAux_spec (n + 1) n (Nat.lt_succ_self n)).1

lemma renderInt_data_ne_nil (n : Int) : (renderInt n).data ≠ [] := by
  unfold renderInt
  by_cases h : n < 0
  · rw [if_pos h]
    simp
  · rw [if_neg h]
    exact natDigits_ne_nil n.toNat

lemma renderInt_beq_empty (n : Int) : (renderInt n == "") = false := by
  apply beq_eq_false_iff_ne.mpr
  intro h
  exact renderInt_data_ne_nil n (congrArg String.data h)

/-- C10 witness: the theorem applied to a one-row dataset whose record
survives the widest filter, concluding that its age is present. -/
theorem filtered_rows_have_age_witness :
    ({ blankRecord with age := some 25 } : Record).age.isSome :=
  filtered_rows_have_age [{ blankRecord with age := some 25 }]
    ⟨20, 30, [], [], [], [], [], []⟩
    { blankRecord with age := some 25 } (by decide)
